import Mathlib

/-!
# git-profile: a verified shallow embedding

This development embeds the `git-profile` command-line tool (a Go program
managing named git identity profiles) into Lean 4 and proves its main
behavioural properties.

Modelling conventions:
* A Go `map[string]Profile` is an association list with pairwise-distinct
  keys (`ProfileMap`); Go guarantees key uniqueness, which appears here as
  a `Nodup` hypothesis on the key list where needed.
* The JSON file written by `saveConfig` is modelled at the level of JSON
  trees (`Json`); `encoding/json` specifics that matter (map keys emitted
  in sorted order, `omitempty` on `ssh_key_path`, JSON `null` decoding as
  a no-op, missing object fields leaving the zero value) are modelled
  explicitly.
* External git configuration state is a pair of partial maps (local and
  global files); `git config --get KEY` without `--global` resolves the
  local value first and falls back to the global one, following git's
  documented precedence.
* Failures of the external `git` binary are an oracle (`GitEnv`): for each
  attempted write the oracle decides success or yields git's error text.
* Process-level effects (which file is written, how many times the config
  is loaded) are threaded through an explicit `World` state.
-/

namespace GitProfile

/-- A git identity profile (struct `Profile` in `main.go`): id, user name,
email and optional SSH key path; the empty string is Go's zero value and
stands for "not set" in `SSHKeyPath`. -/
structure Profile where
  ID : String
  GitUser : String
  GitEmail : String
  SSHKeyPath : String
deriving DecidableEq, Repr

/-- The in-memory content of `Config.Profiles`: an association list from
profile id to profile, standing for the Go `map[string]Profile`. -/
abbrev ProfileMap := List (String × Profile)

/-- Keys of a profile map. -/
def keysOf (m : ProfileMap) : List String := m.map Prod.fst

/-- Go map indexing `cfg.Profiles[id]` (comma-ok form): the binding for
`id`, if any. -/
def lookupP : ProfileMap → String → Option Profile
  | [], _ => none
  | (k, p) :: rest, id => if k = id then some p else lookupP rest id

/-- Whether the map has a binding for `id` (the `ok` of `_, ok := m[id]`). -/
def hasKey : ProfileMap → String → Bool
  | [], _ => false
  | (k, _) :: rest, id => k = id || hasKey rest id

/-- Go map assignment `m[id] = p`: replace the existing binding, or append
a new one. -/
def upsert : ProfileMap → String → Profile → ProfileMap
  | [], id, p => [(id, p)]
  | (k, q) :: rest, id, p =>
      if k = id then (id, p) :: rest else (k, q) :: upsert rest id p

/-- Insertion step of an insertion sort (used to model Go's
`sort.Strings` and `encoding/json`'s sorted map-key output). -/
def insertLe {α : Type} (le : α → α → Bool) (x : α) : List α → List α
  | [] => [x]
  | y :: ys => if le x y then x :: y :: ys else y :: insertLe le x ys

/-- Insertion sort by a boolean comparison. -/
def sortLe {α : Type} (le : α → α → Bool) : List α → List α
  | [] => []
  | x :: xs => insertLe le x (sortLe le xs)

/-- Lexicographic comparison of character lists by code point — for the
valid UTF-8 Go produces this coincides with Go's byte-wise string
order. -/
def charsLe : List Char → List Char → Bool
  | [], _ => true
  | _ :: _, [] => false
  | a :: as, b :: bs =>
      if a.toNat < b.toNat then true
      else if b.toNat < a.toNat then false
      else charsLe as bs

/-- Go's `<=` on strings (the order `sort.Strings` uses). -/
def goStrLe (a b : String) : Bool := charsLe a.data b.data

/-- `sort.Strings`: ascending lexicographic sort. -/
def sortStrings (l : List String) : List String :=
  sortLe goStrLe l

/-- Sort an association list by key, as `encoding/json` does when
serialising a Go map. -/
def sortPairs (m : ProfileMap) : ProfileMap :=
  sortLe (fun a b => goStrLe a.1 b.1) m

/-- JSON value trees; the config file's content is modelled at this level. -/
inductive Json where
  | null : Json
  | str : String → Json
  | num : Int → Json
  | bool : Bool → Json
  | arr : List Json → Json
  | obj : List (String × Json) → Json

/-- Field lookup in a JSON object. `encoding/json` lets a later duplicate
key overwrite an earlier one, so the last binding wins. -/
def jlookup : List (String × Json) → String → Option Json
  | [], _ => none
  | (k, v) :: rest, name =>
      match jlookup rest name with
      | some r => some r
      | none => if k = name then some v else none

/-- Marshalling of a `Profile` per its struct tags: `id`, `git_user`,
`git_email` always; `ssh_key_path` carries `omitempty`, so it is dropped
when it is the zero value `""`. -/
def encodeProfile (p : Profile) : Json :=
  Json.obj ([("id", Json.str p.ID), ("git_user", Json.str p.GitUser),
             ("git_email", Json.str p.GitEmail)] ++
    (if p.SSHKeyPath = "" then [] else [("ssh_key_path", Json.str p.SSHKeyPath)]))

/-- Marshalling of a `Config`: one `profiles` object whose keys are the
map keys in sorted order (as `encoding/json` emits Go maps). -/
def encodeConfig (m : ProfileMap) : Json :=
  Json.obj [("profiles", Json.obj ((sortPairs m).map (fun kp => (kp.1, encodeProfile kp.2))))]

/-- Decoding a JSON value into a `string` struct field starting from the
zero value: a missing field leaves the zero value, JSON `null` is a no-op,
a string sets the field, anything else is a decode error. -/
def decodeStrField (fields : List (String × Json)) (name : String) : Except String String :=
  match jlookup fields name with
  | none => Except.ok ""
  | some Json.null => Except.ok ""
  | some (Json.str s) => Except.ok s
  | some _ => Except.error "cannot unmarshal into field of type string"

/-- Decoding a JSON value into a `Profile` (zero value to start): an
object fills the tagged fields, `null` is a no-op, anything else errors. -/
def decodeProfile : Json → Except String Profile
  | Json.null => Except.ok ⟨"", "", "", ""⟩
  | Json.obj fields => do
      let i ← decodeStrField fields "id"
      let u ← decodeStrField fields "git_user"
      let e ← decodeStrField fields "git_email"
      let s ← decodeStrField fields "ssh_key_path"
      Except.ok ⟨i, u, e, s⟩
  | _ => Except.error "cannot unmarshal into value of type Profile"

/-- Decoding the fields of the `profiles` JSON object into a Go map, in
order, later duplicate keys overwriting earlier ones. -/
def decodeProfilesAux (acc : ProfileMap) : List (String × Json) → Except String ProfileMap
  | [] => Except.ok acc
  | (k, j) :: rest =>
      match decodeProfile j with
      | Except.error e => Except.error e
      | Except.ok p => decodeProfilesAux (upsert acc k p) rest

/-- Decoding a whole config document into a `Config` whose `Profiles`
field was pre-initialised to an empty map (`loadConfig` lines 47-64): a
missing or `null` `profiles` field leaves the empty map, and the final
nil-map normalisation can therefore never yield an absent mapping. -/
def decodeConfig : Json → Except String ProfileMap
  | Json.null => Except.ok []
  | Json.obj fields =>
      match jlookup fields "profiles" with
      | none => Except.ok []
      | some Json.null => Except.ok []
      | some (Json.obj pf) => decodeProfilesAux [] pf
      | some _ => Except.error "cannot unmarshal into field of type map"
  | _ => Except.error "cannot unmarshal into value of type Config"

/-- State of the config file on disk: missing, unparsable, or holding a
JSON document. -/
inductive FileState where
  | absent : FileState
  | invalid : FileState
  | stored : Json → FileState

/-- `loadConfig`: a missing file is an empty config (not an error), an
unparsable file is a decode error, otherwise decode the document. -/
def loadConfig : FileState → Except String ProfileMap
  | FileState.absent => Except.ok []
  | FileState.invalid => Except.error "invalid character in config file"
  | FileState.stored j => decodeConfig j

/-- `saveConfig`: serialise and atomically replace the file's content.
The write-to-temp-then-rename dance guarantees the new state is exactly
the encoded document. -/
def saveConfig (m : ProfileMap) : FileState :=
  FileState.stored (encodeConfig m)

/-! ## Git configuration state -/

/-- The scope of a `git config` write. `runGitConfig` only distinguishes
the string `"global"` from everything else (treated as local), and the
CLI only ever produces `"local"` and `"global"`, so scope is two-valued. -/
inductive Scope where
  | loc : Scope
  | global : Scope
deriving DecidableEq, Repr

/-- External git configuration: the keys set in the repository's local
config file and in the user's global config file. -/
structure GitState where
  localMap : String → Option String
  globalMap : String → Option String

/-- Oracle for the external `git` binary: for each attempted
`git config` write, `none` means git accepts it and `some msg` means git
exits non-zero with error text `msg`; `unsetOk` tells whether the
best-effort local `--unset` of a key takes effect. -/
structure GitEnv where
  setRes : Scope → String → String → Option String
  unsetOk : Bool
  gitDirRes : Option String
  hookWriteOk : Bool

/-- The value of key `key` in the config file of scope `sc`. -/
def gitAt (st : GitState) (sc : Scope) (key : String) : Option String :=
  match sc with
  | Scope.loc => st.localMap key
  | Scope.global => st.globalMap key

/-- Setting `key` to `value` in the config file of scope `sc`. -/
def setKey (st : GitState) (sc : Scope) (key value : String) : GitState :=
  match sc with
  | Scope.loc =>
      { st with localMap := fun k => if k = key then some value else st.localMap k }
  | Scope.global =>
      { st with globalMap := fun k => if k = key then some value else st.globalMap k }

/-- Removing `key` from the local config file. -/
def unsetLocalKey (st : GitState) (key : String) : GitState :=
  { st with localMap := fun k => if k = key then none else st.localMap k }

/-- `runGitConfig`: `git config [--global] key value`; on success the key
is written at the requested scope, on failure the state is untouched and
git's error surfaces. -/
def runGitConfig (env : GitEnv) (sc : Scope) (key value : String) (st : GitState) :
    Except String Unit × GitState :=
  match env.setRes sc key value with
  | some msg => (Except.error msg, st)
  | none => (Except.ok (), setKey st sc key value)

/-- `getGitConfig`: `git config --get key` without `--global` resolves
by git's precedence: the local value if set, else the global one; it
errors (here: `none`) when the key is set nowhere. -/
def getGitConfig (st : GitState) (key : String) : Option String :=
  match st.localMap key with
  | some v => some v
  | none => st.globalMap key

/-- `getGitConfigGlobal`: `git config --global --get key`. -/
def getGitConfigGlobal (st : GitState) (key : String) : Option String :=
  st.globalMap key

/-- The `core.sshCommand` value constructed for a profile's key path. -/
def sshCommandFor (path : String) : String :=
  "ssh -i " ++ path ++ " -F /dev/null"

/-- `applyProfile`: set `user.name` and `user.email` at the requested
scope (either failure aborts with an error saying which key failed);
then either set `core.sshCommand` to the constructed ssh command, or —
when no key is configured and the scope is not global — best-effort
unset the local `core.sshCommand`, ignoring failure. -/
def applyProfile (env : GitEnv) (p : Profile) (sc : Scope) (st : GitState) :
    Except String Unit × GitState :=
  match runGitConfig env sc "user.name" p.GitUser st with
  | (Except.error e, st1) => (Except.error ("setting user.name: " ++ e), st1)
  | (Except.ok _, st1) =>
    match runGitConfig env sc "user.email" p.GitEmail st1 with
    | (Except.error e, st2) => (Except.error ("setting user.email: " ++ e), st2)
    | (Except.ok _, st2) =>
      if p.SSHKeyPath ≠ "" then
        match runGitConfig env sc "core.sshCommand" (sshCommandFor p.SSHKeyPath) st2 with
        | (Except.error e, st3) => (Except.error ("setting core.sshCommand: " ++ e), st3)
        | (Except.ok _, st3) => (Except.ok (), st3)
      else if sc ≠ Scope.global then
        (Except.ok (), if env.unsetOk then unsetLocalKey st2 "core.sshCommand" else st2)
      else
        (Except.ok (), st2)

/-! ## Input parsing for the interactive selector -/

/-- `unicode.IsSpace`, as used by `strings.TrimSpace`. -/
def goIsSpace (c : Char) : Bool :=
  c = ' ' || c = '\t' || c = '\n' || c = Char.ofNat 11 || c = Char.ofNat 12 ||
  c = '\r' || c = Char.ofNat 0x85 || c = Char.ofNat 0xA0 || c = Char.ofNat 0x1680 ||
  (0x2000 ≤ c.toNat && c.toNat ≤ 0x200A) || c = Char.ofNat 0x2028 ||
  c = Char.ofNat 0x2029 || c = Char.ofNat 0x202F || c = Char.ofNat 0x205F ||
  c = Char.ofNat 0x3000

/-- `strings.TrimSpace`: drop whitespace from both ends. -/
def trimSpace (s : String) : String :=
  String.mk (((s.data.dropWhile goIsSpace).reverse.dropWhile goIsSpace).reverse)

/-- Scan a maximal run of decimal digits, accumulating their value. -/
def scanDigits : List Char → Nat → Nat × List Char
  | c :: rest, acc =>
      if c.isDigit then scanDigits rest (acc * 10 + (c.toNat - 48)) else (acc, c :: rest)
  | [], acc => (acc, [])

/-- `fmt.Sscanf(line, "%d", &choice)`: skip leading spaces, accept an
optional sign followed by at least one decimal digit, read the maximal
digit run, and ignore whatever follows; no digits is a scan error. -/
def sscanfInt (s : String) : Option Int :=
  let cs := s.data.dropWhile goIsSpace
  let signed : Bool × List Char :=
    match cs with
    | '-' :: rest => (true, rest)
    | '+' :: rest => (false, rest)
    | _ => (false, cs)
  match signed.2 with
  | c :: _ =>
      if c.isDigit then
        let v := (scanDigits signed.2 0).1
        some (if signed.1 then -(v : Int) else (v : Int))
      else none
  | [] => none

/-! ## Process state and the eight command handlers -/

/-- Observable process state threaded through a command invocation: the
config file, the external git configuration, how many times the config
file has been loaded, and whether the hook files have been written. -/
structure World where
  file : FileState
  git : GitState
  loadCount : Nat
  hooksInstalled : Bool

/-- A call to `loadConfig` inside a command: reads the file and counts
the load. -/
def loadConfigW (w : World) : Except String ProfileMap × World :=
  (loadConfig w.file, { w with loadCount := w.loadCount + 1 })

/-- The flags of the `add` command; each `flag.String` default is `""`. -/
structure AddFlags where
  id : String := ""
  name : String := ""
  email : String := ""
  sshKey : String := ""
deriving DecidableEq, Repr

/-- The profile built by `cmdAdd` from its flags. -/
def profileOfFlags (fl : AddFlags) : Profile :=
  { ID := fl.id, GitUser := fl.name, GitEmail := fl.email, SSHKeyPath := fl.sshKey }

/-- `cmdAdd`: require the three mandatory flags, load the config, reject
a duplicate id, otherwise insert the new profile and save. Only the
success path writes the file. -/
def cmdAdd (fl : AddFlags) (w : World) : Except String Unit × World :=
  if fl.id = "" ∨ fl.name = "" ∨ fl.email = "" then
    (Except.error "id, name and email are required", w)
  else
    match loadConfigW w with
    | (Except.error e, w1) => (Except.error e, w1)
    | (Except.ok m, w1) =>
      if hasKey m fl.id then
        (Except.error ("profile \"" ++ fl.id ++ "\" already exists"), w1)
      else
        (Except.ok (), { w1 with file := saveConfig (upsert m fl.id (profileOfFlags fl)) })

/-- `cmdList`: print the profiles, ids in sorted order, with the SSH key
path or a `(default SSH)` marker. -/
def cmdList (w : World) : Except String (List String) × World :=
  match loadConfigW w with
  | (Except.error e, w1) => (Except.error e, w1)
  | (Except.ok m, w1) =>
    if m.length = 0 then
      (Except.ok ["No profiles configured yet."], w1)
    else
      let ids := sortStrings (keysOf m)
      (Except.ok ("Configured profiles:" :: ids.map (fun id =>
        let p := (lookupP m id).getD ⟨"", "", "", ""⟩
        let ssh := if p.SSHKeyPath = "" then "(default SSH)" else p.SSHKeyPath
        "  - " ++ id ++ ": " ++ p.GitUser ++ " <" ++ p.GitEmail ++ ">, ssh=" ++ ssh)), w1)

/-- `cmdUse`: look the profile up and apply it at the chosen scope. -/
def cmdUse (env : GitEnv) (scopeGlobal : Bool) (positional : List String) (w : World) :
    Except String String × World :=
  match positional with
  | [] => (Except.error "usage: git-profile use [--global] <profile-id>", w)
  | id :: _ =>
    match loadConfigW w with
    | (Except.error e, w1) => (Except.error e, w1)
    | (Except.ok m, w1) =>
      match lookupP m id with
      | none => (Except.error ("profile \"" ++ id ++ "\" not found"), w1)
      | some p =>
        let sc := if scopeGlobal then Scope.global else Scope.loc
        match applyProfile env p sc w1.git with
        | (Except.error e, git1) => (Except.error e, { w1 with git := git1 })
        | (Except.ok _, git1) => (Except.ok id, { w1 with git := git1 })

/-- The `user.name` line `cmdCurrent` prints when the read succeeded. -/
def nameLine (o : Option String) : List String :=
  match o with
  | some n => ["  user.name  = " ++ n]
  | none => []

/-- The `user.email` line `cmdCurrent` prints when the read succeeded. -/
def emailLine (o : Option String) : List String :=
  match o with
  | some e => ["  user.email = " ++ e]
  | none => []

/-- The `core.sshCommand` line: the value when readable and nonempty,
the `(default)` marker otherwise. -/
def sshLine (st : GitState) : List String :=
  match getGitConfig st "core.sshCommand" with
  | some s => if s ≠ "" then ["  core.sshCommand = " ++ s]
              else ["  core.sshCommand = (default)"]
  | none => ["  core.sshCommand = (default)"]

/-- The local `gitprofile.default` line, printed only when readable and
nonempty. -/
def localDefaultLine (st : GitState) : List String :=
  match getGitConfig st "gitprofile.default" with
  | some d => if d ≠ "" then ["  gitprofile.default (local) = " ++ d] else []
  | none => []

/-- The global `gitprofile.default` line, printed only when readable and
nonempty. -/
def globalDefaultLine (st : GitState) : List String :=
  match getGitConfigGlobal st "gitprofile.default" with
  | some g => if g ≠ "" then ["  gitprofile.default (global) = " ++ g] else []
  | none => []

/-- `cmdCurrent`: read `user.name` and `user.email`; fail only when both
reads fail, otherwise print whichever is set, the `core.sshCommand`
(or a `(default)` marker), and any nonempty `gitprofile.default`
values. -/
def cmdCurrent (st : GitState) : Except String (List String) :=
  match getGitConfig st "user.name", getGitConfig st "user.email" with
  | none, none => Except.error "no user.name or user.email set in this repo"
  | nameO, emailO =>
    Except.ok (["Current git identity (this repo):"] ++
      nameLine nameO ++ emailLine emailO ++ sshLine st ++
      localDefaultLine st ++ globalDefaultLine st)

/-- `cmdChoose`: load the config, refuse an empty one, list the ids in
sorted order, read one input line, trim it, scan a number, check the
range `[1, N]`, and apply the selected profile to the local scope. -/
def cmdChoose (env : GitEnv) (input : String) (w : World) : Except String String × World :=
  match loadConfigW w with
  | (Except.error e, w1) => (Except.error e, w1)
  | (Except.ok m, w1) =>
    if m.length = 0 then
      (Except.error "no profiles configured; run `git-profile add` first", w1)
    else
      let ids := sortStrings (keysOf m)
      let line := trimSpace input
      if line = "" then (Except.error "no selection made", w1)
      else
        match sscanfInt line with
        | none => (Except.error "invalid selection", w1)
        | some choice =>
          if choice < 1 ∨ choice > (ids.length : Int) then
            (Except.error "invalid selection", w1)
          else
            let selectedID := ids.getD (choice - 1).toNat ""
            let p := (lookupP m selectedID).getD ⟨"", "", "", ""⟩
            match applyProfile env p Scope.loc w1.git with
            | (Except.error e, git1) => (Except.error e, { w1 with git := git1 })
            | (Except.ok _, git1) => (Except.ok selectedID, { w1 with git := git1 })

/-- `cmdSetDefault`: validate the id and store it under
`gitprofile.default` at the chosen scope. -/
def cmdSetDefault (env : GitEnv) (scopeGlobal : Bool) (positional : List String) (w : World) :
    Except String String × World :=
  match positional with
  | [] => (Except.error "usage: git-profile set-default [--global] <profile-id>", w)
  | id :: _ =>
    match loadConfigW w with
    | (Except.error e, w1) => (Except.error e, w1)
    | (Except.ok m, w1) =>
      if hasKey m id then
        let sc := if scopeGlobal then Scope.global else Scope.loc
        match runGitConfig env sc "gitprofile.default" id w1.git with
        | (Except.error e, git1) => (Except.error e, { w1 with git := git1 })
        | (Except.ok _, git1) => (Except.ok id, { w1 with git := git1 })
      else
        (Except.error ("profile \"" ++ id ++ "\" not found"), w1)

/-- Tier 2 and tier 3 of `cmdEnsure`: try the global default, else fall
through to the interactive `cmdChoose` (which loads the config again). -/
def ensureGlobalTier (env : GitEnv) (input : String) (m : ProfileMap) (w1 : World) :
    Except String String × World :=
  match getGitConfigGlobal w1.git "gitprofile.default" with
  | some gdef =>
    if gdef ≠ "" then
      match lookupP m gdef with
      | some p =>
        match applyProfile env p Scope.loc w1.git with
        | (Except.error e, git1) => (Except.error e, { w1 with git := git1 })
        | (Except.ok _, git1) => (Except.ok gdef, { w1 with git := git1 })
      | none => cmdChoose env input w1
    else cmdChoose env input w1
  | none => cmdChoose env input w1

/-- `cmdEnsure`: refuse an empty config, then resolve a default profile:
the merged `gitprofile.default` (local over global precedence) if it
names a known profile, else the global `gitprofile.default`, else fall
through to the interactive selector. -/
def cmdEnsure (env : GitEnv) (input : String) (w : World) : Except String String × World :=
  match loadConfigW w with
  | (Except.error e, w1) => (Except.error e, w1)
  | (Except.ok m, w1) =>
    if m.length = 0 then
      (Except.error "no profiles configured; run `git-profile add` first", w1)
    else
      match getGitConfig w1.git "gitprofile.default" with
      | some def0 =>
        if def0 ≠ "" then
          match lookupP m def0 with
          | some p =>
            match applyProfile env p Scope.loc w1.git with
            | (Except.error e, git1) => (Except.error e, { w1 with git := git1 })
            | (Except.ok _, git1) => (Except.ok def0, { w1 with git := git1 })
          | none => ensureGlobalTier env input m w1
        else ensureGlobalTier env input m w1
      | none => ensureGlobalTier env input m w1

/-- `cmdInstallHooks`: locate the git dir and write the two hook files;
the config file is never touched. -/
def cmdInstallHooks (env : GitEnv) (w : World) : Except String Unit × World :=
  match env.gitDirRes with
  | none => (Except.error "not a git repo?", w)
  | some _ =>
    if env.hookWriteOk then (Except.ok (), { w with hooksInstalled := true })
    else (Except.error "writing hook", w)

/-- The eight commands with their parsed arguments. -/
inductive Cmd where
  | add : AddFlags → Cmd
  | list : Cmd
  | use : Bool → List String → Cmd
  | current : Cmd
  | choose : Cmd
  | setDefault : Bool → List String → Cmd
  | ensure : Cmd
  | installHooks : Cmd
deriving DecidableEq, Repr

/-- Dispatch a command against the world, erasing each handler's printed
payload. -/
def runCommand (env : GitEnv) (input : String) (c : Cmd) (w : World) :
    Except String Unit × World :=
  match c with
  | Cmd.add fl => cmdAdd fl w
  | Cmd.list =>
      match cmdList w with
      | (r, w1) => (r.map (fun _ => ()), w1)
  | Cmd.use g pos =>
      match cmdUse env g pos w with
      | (r, w1) => (r.map (fun _ => ()), w1)
  | Cmd.current => ((cmdCurrent w.git).map (fun _ => ()), w)
  | Cmd.choose =>
      match cmdChoose env input w with
      | (r, w1) => (r.map (fun _ => ()), w1)
  | Cmd.setDefault g pos =>
      match cmdSetDefault env g pos w with
      | (r, w1) => (r.map (fun _ => ()), w1)
  | Cmd.ensure =>
      match cmdEnsure env input w with
      | (r, w1) => (r.map (fun _ => ()), w1)
  | Cmd.installHooks => cmdInstallHooks env w

/-! ## Top-level dispatch (`main`) -/

/-- What the process does at exit: the exit code, whether usage went to
standard output, and the `Error:`/`Unknown command:` lines on standard
error. -/
structure MainResult where
  exitCode : Nat
  usageShown : Bool
  errLine : Option String
  unknownLine : Option String
deriving DecidableEq, Repr

/-- The names `main` routes to a handler. -/
def commandNames : List String :=
  ["add", "list", "use", "current", "choose", "set-default", "ensure", "install-hooks"]

/-- `main`: with no command print usage and exit 1; `help`/`-h`/`--help`
print usage and exit 0; a known command runs its handler, exiting 0 on
success and 1 with `Error: <message>` on standard error otherwise; an
unknown command notes it on standard error, prints usage on standard
output, and exits 1. `h` gives each handler's outcome. -/
def mainDispatch (argv : List String) (h : String → Except String Unit) : MainResult :=
  match argv with
  | [] => { exitCode := 1, usageShown := true, errLine := none, unknownLine := none }
  | [_] => { exitCode := 1, usageShown := true, errLine := none, unknownLine := none }
  | _ :: cmd :: _ =>
    if cmd = "help" ∨ cmd = "-h" ∨ cmd = "--help" then
      { exitCode := 0, usageShown := true, errLine := none, unknownLine := none }
    else if commandNames.contains cmd then
      match h cmd with
      | Except.ok _ =>
          { exitCode := 0, usageShown := false, errLine := none, unknownLine := none }
      | Except.error e =>
          { exitCode := 1, usageShown := false, errLine := some ("Error: " ++ e),
            unknownLine := none }
    else
      { exitCode := 1, usageShown := true, errLine := none,
        unknownLine := some ("Unknown command: " ++ cmd) }

/-! ## Sample values used to evaluate the theorems on concrete inputs -/

/-- A git environment in which every write succeeds. -/
def sampleEnv : GitEnv := ⟨fun _ _ _ => none, true, some ".git", true⟩

/-- Git configuration with nothing set anywhere. -/
def emptyGit : GitState := ⟨fun _ => none, fun _ => none⟩

/-- Example profile without an SSH key. -/
def alice : Profile := ⟨"alice", "Alice A", "a@x.com", ""⟩

/-- Example profile with an SSH key. -/
def bob : Profile := ⟨"bob", "Bob B", "b@x.com", "/home/bob/.ssh/id_bob"⟩

/-- Example two-profile config. -/
def sampleMap : ProfileMap := [("alice", alice), ("bob", bob)]

/-- Example world: the sample config saved on disk, nothing in git
config, no loads yet. -/
def sampleWorld : World := ⟨saveConfig sampleMap, emptyGit, 0, false⟩

/-- Git configuration with only a local `user.name` set. -/
def gitNameOnly : GitState :=
  ⟨fun k => if k = "user.name" then some "Alice A" else none, fun _ => none⟩

/-! ## Association-list lemmas -/

theorem hasKey_eq_isSome_lookupP (m : ProfileMap) (k : String) :
    hasKey m k = (lookupP m k).isSome := by
  induction m with
  | nil => rfl
  | cons kv rest ih =>
    obtain ⟨k', p⟩ := kv
    by_cases h : k' = k <;> simp [hasKey, lookupP, h, ih]

theorem hasKey_iff_mem (m : ProfileMap) (k : String) :
    hasKey m k = true ↔ k ∈ keysOf m := by
  induction m with
  | nil => simp [hasKey, keysOf]
  | cons kv rest ih =>
    obtain ⟨k', p⟩ := kv
    simp only [hasKey, keysOf, List.map_cons, List.mem_cons, Bool.or_eq_true,
      decide_eq_true_eq]
    rw [ih]
    constructor
    · rintro (rfl | h)
      · exact Or.inl rfl
      · exact Or.inr h
    · rintro (rfl | h)
      · exact Or.inl rfl
      · exact Or.inr h

theorem mem_of_lookupP_eq_some {m : ProfileMap} {k : String} {p : Profile}
    (h : lookupP m k = some p) : (k, p) ∈ m := by
  induction m with
  | nil => simp [lookupP] at h
  | cons kv rest ih =>
    obtain ⟨k', q⟩ := kv
    by_cases hk : k' = k
    · subst hk
      simp [lookupP] at h
      subst h
      exact List.mem_cons_self _ _
    · simp [lookupP, hk] at h
      exact List.mem_cons_of_mem _ (ih h)

theorem lookupP_eq_some_of_mem {m : ProfileMap} {k : String} {p : Profile}
    (hnd : (keysOf m).Nodup) (h : (k, p) ∈ m) : lookupP m k = some p := by
  induction m with
  | nil => simp at h
  | cons kv rest ih =>
    obtain ⟨k', q⟩ := kv
    simp only [keysOf, List.map_cons, List.nodup_cons] at hnd
    rcases List.mem_cons.mp h with heq | hmem
    · cases heq
      simp [lookupP]
    · have hkne : k' ≠ k := by
        intro hc
        subst hc
        exact hnd.1 (List.mem_map_of_mem Prod.fst hmem)
      simp [lookupP, hkne]
      exact ih hnd.2 hmem

theorem lookupP_isSome_iff_mem (m : ProfileMap) (k : String) :
    (lookupP m k).isSome = true ↔ k ∈ keysOf m := by
  rw [← hasKey_eq_isSome_lookupP]
  exact hasKey_iff_mem m k

theorem lookupP_eq_of_perm {m₁ m₂ : ProfileMap} (hp : m₁.Perm m₂)
    (hnd : (keysOf m₁).Nodup) (k : String) : lookupP m₁ k = lookupP m₂ k := by
  have hnd₂ : (keysOf m₂).Nodup := ((hp.map Prod.fst).nodup_iff).mp hnd
  cases h₁ : lookupP m₁ k with
  | some p =>
    exact (lookupP_eq_some_of_mem hnd₂ (hp.mem_iff.mp (mem_of_lookupP_eq_some h₁))).symm
  | none =>
    cases h₂ : lookupP m₂ k with
    | none => rfl
    | some p =>
      exfalso
      have : k ∈ keysOf m₂ := (lookupP_isSome_iff_mem m₂ k).mp (by simp [h₂])
      have : k ∈ keysOf m₁ := ((hp.map Prod.fst).mem_iff).mpr this
      have := (lookupP_isSome_iff_mem m₁ k).mpr this
      simp [h₁] at this

theorem upsert_of_not_hasKey {m : ProfileMap} {k : String} (p : Profile)
    (h : hasKey m k = false) : upsert m k p = m ++ [(k, p)] := by
  induction m with
  | nil => rfl
  | cons kv rest ih =>
    obtain ⟨k', q⟩ := kv
    simp only [hasKey, Bool.or_eq_false_iff] at h
    have hne : k' ≠ k := by
      intro hc
      rw [hc] at h
      simp at h
    simp [upsert, hne, ih h.2]

theorem lookupP_upsert_self (m : ProfileMap) (k : String) (p : Profile) :
    lookupP (upsert m k p) k = some p := by
  induction m with
  | nil => simp [upsert, lookupP]
  | cons kv rest ih =>
    obtain ⟨k', q⟩ := kv
    by_cases h : k' = k <;> simp [upsert, lookupP, h, ih]

theorem lookupP_upsert_ne (m : ProfileMap) {k k' : String} (p : Profile)
    (h : k' ≠ k) : lookupP (upsert m k p) k' = lookupP m k' := by
  have h' : ¬(k = k') := fun hc => h hc.symm
  induction m with
  | nil => simp [upsert, lookupP, h']
  | cons kv rest ih =>
    obtain ⟨k₀, q⟩ := kv
    by_cases h₀ : k₀ = k
    · subst h₀
      simp [upsert, lookupP, h']
    · simp only [upsert, if_neg h₀, lookupP]
      by_cases h₁ : k₀ = k' <;> simp [h₁, ih]

theorem keysOf_upsert_of_not_hasKey {m : ProfileMap} {k : String} (p : Profile)
    (h : hasKey m k = false) : keysOf (upsert m k p) = keysOf m ++ [k] := by
  rw [upsert_of_not_hasKey p h]
  simp [keysOf]

theorem hasKey_append (a b : ProfileMap) (k : String) :
    hasKey (a ++ b) k = (hasKey a k || hasKey b k) := by
  induction a with
  | nil => simp [hasKey]
  | cons kv rest ih =>
    obtain ⟨k', q⟩ := kv
    simp [hasKey, ih, Bool.or_assoc]

/-! ## Sorting lemmas -/

theorem insertLe_perm {α : Type} (le : α → α → Bool) (x : α) (l : List α) :
    (insertLe le x l).Perm (x :: l) := by
  induction l with
  | nil => exact List.Perm.refl _
  | cons y ys ih =>
    by_cases h : le x y
    · simp [insertLe, h]
    · simp only [insertLe, h, if_neg]
      exact (ih.cons y).trans (List.Perm.swap x y ys)

theorem sortLe_perm {α : Type} (le : α → α → Bool) (l : List α) :
    (sortLe le l).Perm l := by
  induction l with
  | nil => exact List.Perm.refl _
  | cons x xs ih => exact (insertLe_perm le x (sortLe le xs)).trans (ih.cons x)

theorem sortStrings_perm (l : List String) : (sortStrings l).Perm l :=
  sortLe_perm _ l

theorem sortPairs_perm (m : ProfileMap) : (sortPairs m).Perm m :=
  sortLe_perm _ m

theorem charsLe_total (a : List Char) : ∀ b, charsLe a b = true ∨ charsLe b a = true := by
  induction a with
  | nil => intro b; left; rfl
  | cons x xs ih =>
    intro b
    cases b with
    | nil => right; rfl
    | cons y ys =>
      by_cases h1 : x.toNat < y.toNat
      · left
        simp [charsLe, h1]
      · by_cases h2 : y.toNat < x.toNat
        · right
          simp [charsLe, h2]
        · rcases ih ys with h | h
          · left
            simp [charsLe, h1, h2, h]
          · right
            simp [charsLe, h1, h2, h]

theorem charsLe_trans (a : List Char) :
    ∀ b c, charsLe a b = true → charsLe b c = true → charsLe a c = true := by
  induction a with
  | nil => intro b c _ _; rfl
  | cons x xs ih =>
    intro b c hab hbc
    cases b with
    | nil => simp [charsLe] at hab
    | cons y ys =>
      cases c with
      | nil => simp [charsLe] at hbc
      | cons z zs =>
        simp only [charsLe] at hab hbc ⊢
        by_cases hxy : x.toNat < y.toNat
        · by_cases hyz : y.toNat < z.toNat
          · simp [show x.toNat < z.toNat by omega]
          · by_cases hzy : z.toNat < y.toNat
            · simp [hyz, hzy] at hbc
            · simp [show x.toNat < z.toNat by omega]
        · by_cases hyx : y.toNat < x.toNat
          · simp [hxy, hyx] at hab
          · by_cases hyz : y.toNat < z.toNat
            · simp [show x.toNat < z.toNat by omega]
            · by_cases hzy : z.toNat < y.toNat
              · simp [hyz, hzy] at hbc
              · have hxz : ¬x.toNat < z.toNat := by omega
                have hzx : ¬z.toNat < x.toNat := by omega
                rw [if_neg hxy, if_neg hyx] at hab
                rw [if_neg hyz, if_neg hzy] at hbc
                rw [if_neg hxz, if_neg hzx]
                exact ih ys zs hab hbc

theorem goStrLe_total (a b : String) : goStrLe a b = true ∨ goStrLe b a = true :=
  charsLe_total a.data b.data

theorem goStrLe_trans {a b c : String} (hab : goStrLe a b = true)
    (hbc : goStrLe b c = true) : goStrLe a c = true :=
  charsLe_trans a.data b.data c.data hab hbc

theorem insertLe_pairwise {α : Type} (le : α → α → Bool)
    (htot : ∀ a b, le a b = true ∨ le b a = true)
    (htrans : ∀ {a b c}, le a b = true → le b c = true → le a c = true)
    (x : α) (l : List α) (h : l.Pairwise (fun a b => le a b = true)) :
    (insertLe le x l).Pairwise (fun a b => le a b = true) := by
  induction l with
  | nil => simp [insertLe]
  | cons y ys ih =>
    rw [List.pairwise_cons] at h
    by_cases hxy : le x y = true
    · simp only [insertLe, hxy, if_pos]
      rw [List.pairwise_cons]
      refine ⟨?_, List.pairwise_cons.mpr h⟩
      intro b hb
      rcases List.mem_cons.mp hb with rfl | hb'
      · exact hxy
      · exact htrans hxy (h.1 b hb')
    · have hyx : le y x = true := (htot x y).resolve_left hxy
      simp only [insertLe, hxy, if_neg, Bool.false_eq_true, not_false_iff]
      rw [List.pairwise_cons]
      refine ⟨?_, ih h.2⟩
      intro b hb
      have := (insertLe_perm le x ys).mem_iff.mp hb
      rcases List.mem_cons.mp this with rfl | hb'
      · exact hyx
      · exact h.1 b hb'

theorem sortStrings_sorted (l : List String) :
    (sortStrings l).Pairwise (fun a b => goStrLe a b = true) := by
  induction l with
  | nil => simp [sortStrings, sortLe]
  | cons x xs ih =>
    exact insertLe_pairwise goStrLe goStrLe_total (fun hab hbc => goStrLe_trans hab hbc) x _ ih

/-! ## Round-trip lemmas for the config store -/

theorem decodeProfile_encodeProfile (p : Profile) :
    decodeProfile (encodeProfile p) = Except.ok p := by
  obtain ⟨i, u, e, s⟩ := p
  by_cases h : s = "" <;>
    simp [encodeProfile, decodeProfile, decodeStrField, jlookup, h, Bind.bind, Except.bind]

theorem decodeProfilesAux_encode (l : ProfileMap) (acc : ProfileMap)
    (hfresh : ∀ k ∈ keysOf l, hasKey acc k = false)
    (hnd : (keysOf l).Nodup) :
    decodeProfilesAux acc (l.map (fun kp => (kp.1, encodeProfile kp.2))) =
      Except.ok (acc ++ l) := by
  induction l generalizing acc with
  | nil => simp [decodeProfilesAux]
  | cons kv rest ih =>
    obtain ⟨k, p⟩ := kv
    simp only [List.map_cons, decodeProfilesAux, decodeProfile_encodeProfile]
    have hk : hasKey acc k = false :=
      hfresh k (by simp only [keysOf, List.map_cons]; exact List.mem_cons_self _ _)
    rw [upsert_of_not_hasKey p hk]
    simp only [keysOf, List.map_cons, List.nodup_cons] at hnd
    rw [ih (acc ++ [(k, p)]) ?_ hnd.2]
    · simp
    · intro k' hk'
      rw [hasKey_append]
      have h₁ : hasKey acc k' = false :=
        hfresh k' (by
          simp only [keysOf, List.map_cons]
          exact List.mem_cons_of_mem _ hk')
      have h₂ : hasKey [(k, p)] k' = false := by
        simp only [hasKey, Bool.or_false, decide_eq_false_iff_not]
        intro hc
        subst hc
        exact hnd.1 hk'
      simp [h₁, h₂]

theorem decodeConfig_encodeConfig (m : ProfileMap) (hnd : (keysOf m).Nodup) :
    decodeConfig (encodeConfig m) = Except.ok (sortPairs m) := by
  have hnds : (keysOf (sortPairs m)).Nodup :=
    (((sortPairs_perm m).map Prod.fst).nodup_iff).mpr hnd
  have hd := decodeProfilesAux_encode (sortPairs m) [] (fun k _ => rfl) hnds
  simp only [List.nil_append] at hd
  simp [encodeConfig, decodeConfig, jlookup, hd]

theorem keysOf_upsert_of_hasKey {m : ProfileMap} {k : String} (p : Profile)
    (h : hasKey m k = true) : keysOf (upsert m k p) = keysOf m := by
  induction m with
  | nil => simp [hasKey] at h
  | cons kv rest ih =>
    obtain ⟨k', q⟩ := kv
    by_cases hk : k' = k
    · subst hk
      simp [upsert, keysOf]
    · simp only [hasKey, Bool.or_eq_true, decide_eq_true_eq] at h
      rcases h with h | h
      · exact absurd h hk
      · simp only [upsert, if_neg hk, keysOf, List.map_cons]
        rw [show List.map Prod.fst (upsert rest k p) = keysOf (upsert rest k p) from rfl,
          ih h]
        rfl

theorem nodupKeys_upsert (m : ProfileMap) (k : String) (p : Profile)
    (hnd : (keysOf m).Nodup) : (keysOf (upsert m k p)).Nodup := by
  cases h : hasKey m k with
  | true => rw [keysOf_upsert_of_hasKey p h]; exact hnd
  | false =>
    rw [keysOf_upsert_of_not_hasKey p h, List.nodup_append]
    refine ⟨hnd, List.nodup_singleton k, ?_⟩
    intro a ha hb
    simp only [List.mem_singleton] at hb
    subst hb
    have : hasKey m a = true := (hasKey_iff_mem m a).mpr ha
    rw [h] at this
    exact Bool.false_ne_true this

theorem nodupKeys_decodeProfilesAux (fields : List (String × Json)) (acc m : ProfileMap)
    (hacc : (keysOf acc).Nodup)
    (h : decodeProfilesAux acc fields = Except.ok m) : (keysOf m).Nodup := by
  induction fields generalizing acc with
  | nil =>
    simp [decodeProfilesAux] at h
    exact h ▸ hacc
  | cons kj rest ih =>
    obtain ⟨k, j⟩ := kj
    simp only [decodeProfilesAux] at h
    cases hd : decodeProfile j with
    | error e => rw [hd] at h; exact absurd h (by simp)
    | ok p =>
      rw [hd] at h
      exact ih (upsert acc k p) (nodupKeys_upsert acc k p hacc) h

theorem loadConfig_nodupKeys {fs : FileState} {m : ProfileMap}
    (h : loadConfig fs = Except.ok m) : (keysOf m).Nodup := by
  cases fs with
  | absent =>
    simp [loadConfig] at h
    simp [h, keysOf]
  | invalid => simp [loadConfig] at h
  | stored j =>
    simp only [loadConfig] at h
    cases j with
    | null =>
      simp [decodeConfig] at h
      simp [h, keysOf]
    | obj fields =>
      simp only [decodeConfig] at h
      cases hl : jlookup fields "profiles" with
      | none =>
        rw [hl] at h
        simp at h
        simp [h, keysOf]
      | some v =>
        rw [hl] at h
        cases v with
        | null => simp at h; simp [h, keysOf]
        | obj pf => exact nodupKeys_decodeProfilesAux pf [] m (by simp [keysOf]) h
        | str s => simp at h
        | num n => simp at h
        | bool b => simp at h
        | arr xs => simp at h
    | str s => simp [decodeConfig] at h
    | num n => simp [decodeConfig] at h
    | bool b => simp [decodeConfig] at h
    | arr xs => simp [decodeConfig] at h

theorem loadConfig_saveConfig_eq (m : ProfileMap) (hnd : (keysOf m).Nodup) :
    loadConfig (saveConfig m) = Except.ok (sortPairs m) := by
  simp [saveConfig, loadConfig, decodeConfig_encodeConfig m hnd]

theorem nodupKeys_sortPairs (m : ProfileMap) (hnd : (keysOf m).Nodup) :
    (keysOf (sortPairs m)).Nodup :=
  (((sortPairs_perm m).map Prod.fst).nodup_iff).mpr hnd

theorem lookupP_sortPairs (m : ProfileMap) (hnd : (keysOf m).Nodup) (k : String) :
    lookupP (sortPairs m) k = lookupP m k :=
  lookupP_eq_of_perm (sortPairs_perm m) (nodupKeys_sortPairs m hnd) k

/-! ## Claim theorems -/

/-- C1: for every config (a finite mapping with the distinct profile ids
a Go map guarantees), saving it with `saveConfig` and reloading with
`loadConfig` succeeds and yields an identical mapping: the same set of
ids, and the same profile record (all of `git_user`, `git_email`,
`ssh_key_path`) for each id. -/
theorem saveConfig_loadConfig_roundtrip (m : ProfileMap)
    (hnd : (keysOf m).Nodup) :
    ∃ m', loadConfig (saveConfig m) = Except.ok m' ∧
      (∀ id, lookupP m' id = lookupP m id) ∧
      (∀ id, hasKey m' id = hasKey m id) := by
  refine ⟨sortPairs m, loadConfig_saveConfig_eq m hnd, lookupP_sortPairs m hnd, ?_⟩
  intro id
  rw [hasKey_eq_isSome_lookupP, hasKey_eq_isSome_lookupP, lookupP_sortPairs m hnd]

/-- Witness for C1 at a two-profile config with and without an SSH key. -/
theorem saveConfig_loadConfig_roundtrip_witness :
    (keysOf [("bob", ⟨"bob", "Bob B", "b@x.com", "/home/bob/.ssh/id_bob"⟩),
             ("alice", ⟨"alice", "Alice A", "a@x.com", ""⟩)]).Nodup ∧
    ∃ m', loadConfig (saveConfig
        [("bob", ⟨"bob", "Bob B", "b@x.com", "/home/bob/.ssh/id_bob"⟩),
         ("alice", ⟨"alice", "Alice A", "a@x.com", ""⟩)]) = Except.ok m' ∧
      (∀ id, lookupP m' id = lookupP
        [("bob", ⟨"bob", "Bob B", "b@x.com", "/home/bob/.ssh/id_bob"⟩),
         ("alice", ⟨"alice", "Alice A", "a@x.com", ""⟩)] id) ∧
      (∀ id, hasKey m' id = hasKey
        [("bob", ⟨"bob", "Bob B", "b@x.com", "/home/bob/.ssh/id_bob"⟩),
         ("alice", ⟨"alice", "Alice A", "a@x.com", ""⟩)] id) :=
  ⟨by decide, saveConfig_loadConfig_roundtrip _ (by decide)⟩

/-- C10: `loadConfig` never yields an absent mapping: a missing file, a
missing `profiles` field and a `null` `profiles` field all give the empty
mapping without error, and every successful load is a well-formed mapping
(pairwise-distinct ids). -/
theorem loadConfig_never_nil :
    loadConfig FileState.absent = Except.ok [] ∧
    (∀ fields, jlookup fields "profiles" = none →
      loadConfig (FileState.stored (Json.obj fields)) = Except.ok []) ∧
    (∀ fields, jlookup fields "profiles" = some Json.null →
      loadConfig (FileState.stored (Json.obj fields)) = Except.ok []) ∧
    (∀ fs m, loadConfig fs = Except.ok m → (keysOf m).Nodup) := by
  refine ⟨rfl, ?_, ?_, fun fs m h => loadConfig_nodupKeys h⟩
  · intro fields h
    simp [loadConfig, decodeConfig, h]
  · intro fields h
    simp [loadConfig, decodeConfig, h]

/-- Witness for C10: a document without a `profiles` field and one whose
`profiles` is `null`. -/
theorem loadConfig_never_nil_witness :
    loadConfig (FileState.stored (Json.obj [("x", Json.num 1)])) = Except.ok [] ∧
    loadConfig (FileState.stored (Json.obj [("profiles", Json.null)])) = Except.ok [] :=
  ⟨loadConfig_never_nil.2.1 [("x", Json.num 1)] rfl,
   loadConfig_never_nil.2.2.1 [("profiles", Json.null)] rfl⟩

/-- C2: `cmdAdd` fails when `id`, `name` or `email` is missing (the flag
default `""`), and fails when the id already exists in the stored config;
in both failure cases the stored file is untouched (no save happens). On
success the profile built from exactly the given flags is inserted and
persisted: reloading shows the new binding and every other id unchanged. -/
theorem cmdAdd_spec (fl : AddFlags) (w : World) (m : ProfileMap)
    (hload : loadConfig w.file = Except.ok m) :
    ((fl.id = "" ∨ fl.name = "" ∨ fl.email = "") →
        cmdAdd fl w = (Except.error "id, name and email are required", w)) ∧
    (fl.id ≠ "" → fl.name ≠ "" → fl.email ≠ "" →
      (hasKey m fl.id = true →
          cmdAdd fl w =
            (Except.error ("profile \"" ++ fl.id ++ "\" already exists"),
             { w with loadCount := w.loadCount + 1 })) ∧
      (hasKey m fl.id = false →
        (cmdAdd fl w).1 = Except.ok () ∧
        (cmdAdd fl w).2.file = saveConfig (upsert m fl.id (profileOfFlags fl)) ∧
        ∃ m', loadConfig (cmdAdd fl w).2.file = Except.ok m' ∧
          lookupP m' fl.id = some (profileOfFlags fl) ∧
          (∀ k, k ≠ fl.id → lookupP m' k = lookupP m k))) := by
  constructor
  · intro h
    simp only [cmdAdd, if_pos h]
  · intro h1 h2 h3
    have hcond : ¬(fl.id = "" ∨ fl.name = "" ∨ fl.email = "") := by
      push_neg
      exact ⟨h1, h2, h3⟩
    constructor
    · intro hdup
      simp only [cmdAdd, if_neg hcond, loadConfigW, hload, hdup, if_pos]
    · intro hfresh
      have hnd : (keysOf m).Nodup := loadConfig_nodupKeys hload
      have hnd2 : (keysOf (upsert m fl.id (profileOfFlags fl))).Nodup :=
        nodupKeys_upsert m fl.id (profileOfFlags fl) hnd
      have hrun : cmdAdd fl w =
          (Except.ok (), { w with
            file := saveConfig (upsert m fl.id (profileOfFlags fl)),
            loadCount := w.loadCount + 1 }) := by
        simp only [cmdAdd, if_neg hcond, loadConfigW, hload, hfresh, Bool.false_eq_true,
          if_neg, not_false_iff]
      refine ⟨by rw [hrun], by rw [hrun], ?_⟩
      rw [hrun]
      refine ⟨sortPairs (upsert m fl.id (profileOfFlags fl)),
        loadConfig_saveConfig_eq _ hnd2, ?_, ?_⟩
      · rw [lookupP_sortPairs _ hnd2]
        exact lookupP_upsert_self m fl.id (profileOfFlags fl)
      · intro k hk
        rw [lookupP_sortPairs _ hnd2]
        exact lookupP_upsert_ne m (profileOfFlags fl) hk

/-- Witness for C2: a fresh add into a one-profile config, with all three
required flags present. -/
theorem cmdAdd_spec_witness :
    (cmdAdd { id := "carol", name := "Carol C", email := "c@x.com", sshKey := "" }
        { file := saveConfig [("alice", ⟨"alice", "Alice A", "a@x.com", ""⟩)],
          git := ⟨fun _ => none, fun _ => none⟩, loadCount := 0,
          hooksInstalled := false }).1 = Except.ok () := by
  have h := cmdAdd_spec
      { id := "carol", name := "Carol C", email := "c@x.com", sshKey := "" }
      { file := saveConfig [("alice", ⟨"alice", "Alice A", "a@x.com", ""⟩)],
        git := ⟨fun _ => none, fun _ => none⟩, loadCount := 0,
        hooksInstalled := false }
      [("alice", ⟨"alice", "Alice A", "a@x.com", ""⟩)] (by rfl)
  exact ((h.2 (by decide) (by decide) (by decide)).2 (by rfl)).1

/-! ## Git-state helper lemmas -/

theorem gitAt_setKey_self (st : GitState) (sc : Scope) (k v : String) :
    gitAt (setKey st sc k v) sc k = some v := by
  cases sc <;> simp [gitAt, setKey]

theorem gitAt_setKey_ne (st : GitState) (sc : Scope) {k k' : String} (v : String)
    (h : k' ≠ k) : gitAt (setKey st sc k v) sc k' = gitAt st sc k' := by
  cases sc <;> simp [gitAt, setKey, h]

theorem localMap_setKey_loc_ne (st : GitState) {k k' : String} (v : String)
    (h : k' ≠ k) : (setKey st Scope.loc k v).localMap k' = st.localMap k' := by
  simp [setKey, h]

theorem applyProfile_loc_globalMap (env : GitEnv) (p : Profile) (st : GitState) :
    (applyProfile env p Scope.loc st).2.globalMap = st.globalMap := by
  cases h1 : env.setRes Scope.loc "user.name" p.GitUser with
  | some e => simp [applyProfile, runGitConfig, h1]
  | none =>
    cases h2 : env.setRes Scope.loc "user.email" p.GitEmail with
    | some e => simp [applyProfile, runGitConfig, h1, h2, setKey]
    | none =>
      by_cases h3 : p.SSHKeyPath = ""
      · by_cases h4 : env.unsetOk <;>
          simp [applyProfile, runGitConfig, h1, h2, h3, h4, setKey, unsetLocalKey]
      · cases h5 : env.setRes Scope.loc "core.sshCommand" (sshCommandFor p.SSHKeyPath) with
        | some e => simp [applyProfile, runGitConfig, h1, h2, h3, h5, setKey]
        | none => simp [applyProfile, runGitConfig, h1, h2, h3, h5, setKey]

/-- C6: `applyProfile` sets `user.name` and `user.email` at the given
scope; with an SSH key it sets `core.sshCommand` at that scope to exactly
`ssh -i <path> -F /dev/null`; with no SSH key at local scope it
best-effort unsets the local `core.sshCommand`, succeeding whether or not
the unset takes; and a failure writing `user.name` or `user.email` (or
`core.sshCommand`) aborts with an error wrapped to name the failing key. -/
theorem applyProfile_spec (env : GitEnv) (p : Profile) (sc : Scope) (st : GitState) :
    (∀ e, env.setRes sc "user.name" p.GitUser = some e →
        applyProfile env p sc st = (Except.error ("setting user.name: " ++ e), st)) ∧
    (env.setRes sc "user.name" p.GitUser = none →
      ∀ e, env.setRes sc "user.email" p.GitEmail = some e →
        applyProfile env p sc st =
          (Except.error ("setting user.email: " ++ e),
           setKey st sc "user.name" p.GitUser)) ∧
    (env.setRes sc "user.name" p.GitUser = none →
     env.setRes sc "user.email" p.GitEmail = none →
      (p.SSHKeyPath ≠ "" →
        ∀ e, env.setRes sc "core.sshCommand" (sshCommandFor p.SSHKeyPath) = some e →
          (applyProfile env p sc st).1 =
            Except.error ("setting core.sshCommand: " ++ e)) ∧
      (p.SSHKeyPath ≠ "" →
        env.setRes sc "core.sshCommand" (sshCommandFor p.SSHKeyPath) = none →
          (applyProfile env p sc st).1 = Except.ok () ∧
          gitAt (applyProfile env p sc st).2 sc "user.name" = some p.GitUser ∧
          gitAt (applyProfile env p sc st).2 sc "user.email" = some p.GitEmail ∧
          gitAt (applyProfile env p sc st).2 sc "core.sshCommand" =
            some ("ssh -i " ++ p.SSHKeyPath ++ " -F /dev/null")) ∧
      (p.SSHKeyPath = "" → sc = Scope.loc →
          (applyProfile env p sc st).1 = Except.ok () ∧
          gitAt (applyProfile env p sc st).2 sc "user.name" = some p.GitUser ∧
          gitAt (applyProfile env p sc st).2 sc "user.email" = some p.GitEmail ∧
          (applyProfile env p sc st).2.localMap "core.sshCommand" =
            (if env.unsetOk then none else st.localMap "core.sshCommand"))) := by
  refine ⟨?_, ?_, ?_⟩
  · intro e h
    simp [applyProfile, runGitConfig, h]
  · intro h1 e h2
    simp [applyProfile, runGitConfig, h1, h2]
  · intro h1 h2
    refine ⟨?_, ?_, ?_⟩
    · intro hssh e h3
      simp [applyProfile, runGitConfig, h1, h2, hssh, h3]
    · intro hssh h3
      have hrun : applyProfile env p sc st =
          (Except.ok (), setKey (setKey (setKey st sc "user.name" p.GitUser)
            sc "user.email" p.GitEmail) sc "core.sshCommand"
            (sshCommandFor p.SSHKeyPath)) := by
        simp [applyProfile, runGitConfig, h1, h2, hssh, h3]
      rw [hrun]
      refine ⟨rfl, ?_, ?_, ?_⟩
      · rw [gitAt_setKey_ne _ _ _ (by decide), gitAt_setKey_ne _ _ _ (by decide)]
        exact gitAt_setKey_self st sc "user.name" p.GitUser
      · rw [gitAt_setKey_ne _ _ _ (by decide)]
        exact gitAt_setKey_self _ sc "user.email" p.GitEmail
      · exact gitAt_setKey_self _ sc "core.sshCommand" (sshCommandFor p.SSHKeyPath)
    · intro hssh hsc
      subst hsc
      have hrun : applyProfile env p Scope.loc st =
          (Except.ok (),
           if env.unsetOk then
             unsetLocalKey (setKey (setKey st Scope.loc "user.name" p.GitUser)
               Scope.loc "user.email" p.GitEmail) "core.sshCommand"
           else
             setKey (setKey st Scope.loc "user.name" p.GitUser)
               Scope.loc "user.email" p.GitEmail) := by
        simp [applyProfile, runGitConfig, h1, h2, hssh]
      rw [hrun]
      by_cases hu : env.unsetOk
      · simp only [hu, if_pos]
        refine ⟨by simp, ?_, ?_, ?_⟩
        · show (unsetLocalKey _ "core.sshCommand").localMap "user.name" = some p.GitUser
          rw [show (unsetLocalKey (setKey (setKey st Scope.loc "user.name" p.GitUser)
              Scope.loc "user.email" p.GitEmail) "core.sshCommand").localMap "user.name" =
              (setKey (setKey st Scope.loc "user.name" p.GitUser)
               Scope.loc "user.email" p.GitEmail).localMap "user.name" from by
            simp [unsetLocalKey]]
          rw [show (setKey (setKey st Scope.loc "user.name" p.GitUser)
              Scope.loc "user.email" p.GitEmail).localMap "user.name" =
              (setKey st Scope.loc "user.name" p.GitUser).localMap "user.name" from by
            simp [setKey]]
          simp [setKey]
        · show (unsetLocalKey _ "core.sshCommand").localMap "user.email" = some p.GitEmail
          simp [unsetLocalKey, setKey]
        · simp [unsetLocalKey]
      · simp only [hu, if_neg, Bool.false_eq_true, not_false_iff]
        refine ⟨by simp, ?_, ?_, ?_⟩
        · show (setKey _ Scope.loc "user.email" p.GitEmail).localMap "user.name" = some p.GitUser
          simp [setKey]
        · simp [gitAt, setKey]
        · simp [setKey]

/-- Witness for C6: a profile with an SSH key applied at global scope
with an all-accepting git, hitting the success-with-key branch. -/
theorem applyProfile_spec_witness :
    (applyProfile ⟨fun _ _ _ => none, true, none, true⟩
        ⟨"bob", "Bob B", "b@x.com", "/home/bob/.ssh/id_bob"⟩ Scope.global
        ⟨fun _ => none, fun _ => none⟩).1 = Except.ok () ∧
    gitAt (applyProfile ⟨fun _ _ _ => none, true, none, true⟩
        ⟨"bob", "Bob B", "b@x.com", "/home/bob/.ssh/id_bob"⟩ Scope.global
        ⟨fun _ => none, fun _ => none⟩).2 Scope.global "core.sshCommand" =
      some "ssh -i /home/bob/.ssh/id_bob -F /dev/null" := by
  have h := (applyProfile_spec ⟨fun _ _ _ => none, true, none, true⟩
      ⟨"bob", "Bob B", "b@x.com", "/home/bob/.ssh/id_bob"⟩ Scope.global
      ⟨fun _ => none, fun _ => none⟩).2.2 rfl rfl
  have h2 := h.2.1 (by decide) rfl
  exact ⟨h2.1, h2.2.2.2⟩

theorem sortStrings_length (l : List String) : (sortStrings l).length = l.length :=
  (sortStrings_perm l).length_eq

theorem keysOf_length (m : ProfileMap) : (keysOf m).length = m.length := by
  simp [keysOf]

theorem sscanfInt_empty : sscanfInt "" = none := rfl

/-- C3: on a non-empty config, when the (trimmed) input line scans as an
integer `k` with `1 ≤ k ≤ N`, `cmdChoose` applies — at local scope, and
with the global git config untouched — the profile whose id is the k-th
in the sorted (lexicographic) id order. -/
theorem cmdChoose_applies_kth (env : GitEnv) (input : String) (w : World)
    (m : ProfileMap) (k : Int)
    (hload : loadConfig w.file = Except.ok m) (hne : ¬m.length = 0)
    (hparse : sscanfInt (trimSpace input) = some k)
    (hk1 : 1 ≤ k) (hkN : k ≤ (m.length : Int)) :
    (sortStrings (keysOf m)).Pairwise (fun a b => goStrLe a b = true) ∧
    (sortStrings (keysOf m)).Perm (keysOf m) ∧
    ∃ p, lookupP m ((sortStrings (keysOf m)).getD (k - 1).toNat "") = some p ∧
      cmdChoose env input w =
        ((match (applyProfile env p Scope.loc w.git).1 with
          | Except.error e => Except.error e
          | Except.ok _ => Except.ok ((sortStrings (keysOf m)).getD (k - 1).toNat "")),
         { w with git := (applyProfile env p Scope.loc w.git).2,
                  loadCount := w.loadCount + 1 }) ∧
      (applyProfile env p Scope.loc w.git).2.globalMap = w.git.globalMap := by
  have hlen : (sortStrings (keysOf m)).length = m.length := by
    rw [sortStrings_length, keysOf_length]
  have hline : ¬trimSpace input = "" := by
    intro h
    rw [h, sscanfInt_empty] at hparse
    exact Option.noConfusion hparse
  have hidx : (k - 1).toNat < (sortStrings (keysOf m)).length := by
    rw [hlen]
    omega
  have hmem : (sortStrings (keysOf m)).getD (k - 1).toNat "" ∈ sortStrings (keysOf m) := by
    rw [List.getD_eq_getElem _ _ hidx]
    exact List.getElem_mem hidx
  have hmemk : (sortStrings (keysOf m)).getD (k - 1).toNat "" ∈ keysOf m :=
    (sortStrings_perm (keysOf m)).mem_iff.mp hmem
  obtain ⟨p, hp⟩ := Option.isSome_iff_exists.mp
    ((lookupP_isSome_iff_mem m _).mpr hmemk)
  have hnotrange : ¬(k < 1 ∨ k > ((sortStrings (keysOf m)).length : Int)) := by
    rw [hlen]
    omega
  refine ⟨sortStrings_sorted _, sortStrings_perm _, p, hp, ?_,
    applyProfile_loc_globalMap env p w.git⟩
  simp only [cmdChoose, loadConfigW, hload, if_neg hne, if_neg hline, hparse,
    if_neg hnotrange, hp, Option.getD_some]
  rcases happ : applyProfile env p Scope.loc w.git with ⟨r, git1⟩
  cases r <;> simp

/-- Witness for C3: input `"2"` on the sample two-profile config selects
`bob`, the second id in sorted order. -/
theorem cmdChoose_applies_kth_witness :
    (sortStrings (keysOf sampleMap)).Pairwise (fun a b => goStrLe a b = true) ∧
    (sortStrings (keysOf sampleMap)).Perm (keysOf sampleMap) ∧
    ∃ p, lookupP sampleMap ((sortStrings (keysOf sampleMap)).getD ((2 : Int) - 1).toNat "") =
        some p ∧
      cmdChoose sampleEnv "2" sampleWorld =
        ((match (applyProfile sampleEnv p Scope.loc sampleWorld.git).1 with
          | Except.error e => Except.error e
          | Except.ok _ =>
              Except.ok ((sortStrings (keysOf sampleMap)).getD ((2 : Int) - 1).toNat "")),
         { sampleWorld with git := (applyProfile sampleEnv p Scope.loc sampleWorld.git).2,
                            loadCount := sampleWorld.loadCount + 1 }) ∧
      (applyProfile sampleEnv p Scope.loc sampleWorld.git).2.globalMap =
        sampleWorld.git.globalMap :=
  cmdChoose_applies_kth sampleEnv "2" sampleWorld sampleMap 2 rfl (by decide) rfl
    (by decide) (by decide)

/-- C4: on a non-empty config, empty input, input that does not scan as
an integer, and an integer outside `[1, N]` each make `cmdChoose` fail
with the no-selection/invalid-selection error and no git write (the
resulting world keeps the original git state and file); on an empty
config it fails before reading any input (uniformly in the input). -/
theorem cmdChoose_rejects_invalid (env : GitEnv) (input : String) (w : World)
    (m : ProfileMap) (hload : loadConfig w.file = Except.ok m) :
    (m.length = 0 →
        cmdChoose env input w =
          (Except.error "no profiles configured; run `git-profile add` first",
           { w with loadCount := w.loadCount + 1 })) ∧
    (¬m.length = 0 →
      (trimSpace input = "" →
          cmdChoose env input w =
            (Except.error "no selection made",
             { w with loadCount := w.loadCount + 1 })) ∧
      (¬trimSpace input = "" → sscanfInt (trimSpace input) = none →
          cmdChoose env input w =
            (Except.error "invalid selection",
             { w with loadCount := w.loadCount + 1 })) ∧
      (∀ k, sscanfInt (trimSpace input) = some k → (k < 1 ∨ k > (m.length : Int)) →
          cmdChoose env input w =
            (Except.error "invalid selection",
             { w with loadCount := w.loadCount + 1 }))) := by
  have hlen : ((sortStrings (keysOf m)).length : Int) = (m.length : Int) := by
    rw [sortStrings_length, keysOf_length]
  constructor
  · intro h0
    simp only [cmdChoose, loadConfigW, hload, if_pos h0]
  · intro hne
    refine ⟨?_, ?_, ?_⟩
    · intro hempty
      simp only [cmdChoose, loadConfigW, hload, if_neg hne, if_pos hempty]
    · intro hnonempty hnone
      simp only [cmdChoose, loadConfigW, hload, if_neg hne, if_neg hnonempty, hnone]
    · intro k hk hout
      have hrange : k < 1 ∨ k > ((sortStrings (keysOf m)).length : Int) := by
        rw [hlen]
        exact hout
      have hnonempty : ¬trimSpace input = "" := by
        intro h
        rw [h, sscanfInt_empty] at hk
        exact Option.noConfusion hk
      simp only [cmdChoose, loadConfigW, hload, if_neg hne, if_neg hnonempty, hk,
        if_pos hrange]

/-- Witness for C4: out-of-range input `"99"` on the sample config. -/
theorem cmdChoose_rejects_invalid_witness :
    cmdChoose sampleEnv "99" sampleWorld =
      (Except.error "invalid selection",
       { sampleWorld with loadCount := sampleWorld.loadCount + 1 }) :=
  ((cmdChoose_rejects_invalid sampleEnv "99" sampleWorld sampleMap rfl).2
    (by decide)).2.2 99 rfl (by decide)

/-- C5: `cmdEnsure` resolves a default, first match winning: a local
`gitprofile.default` naming a known profile is applied at local scope
and resolution stops; otherwise a global `gitprofile.default` naming a
known profile is applied at local scope; otherwise it falls through to
the interactive `cmdChoose` flow. A default naming an unknown profile id
(or set to the empty string) is silently skipped, not an error. -/
theorem cmdEnsure_resolution (env : GitEnv) (input : String) (w : World)
    (m : ProfileMap)
    (hload : loadConfig w.file = Except.ok m) (hne : ¬m.length = 0) :
    (∀ d p, w.git.localMap "gitprofile.default" = some d → ¬d = "" →
        lookupP m d = some p →
        cmdEnsure env input w =
          ((applyProfile env p Scope.loc w.git).1.map (fun _ => d),
           { w with git := (applyProfile env p Scope.loc w.git).2,
                    loadCount := w.loadCount + 1 })) ∧
    ((∀ d, w.git.localMap "gitprofile.default" = some d → ¬d = "" →
        lookupP m d = none) →
      ∀ g p, w.git.globalMap "gitprofile.default" = some g → ¬g = "" →
        lookupP m g = some p →
        cmdEnsure env input w =
          ((applyProfile env p Scope.loc w.git).1.map (fun _ => g),
           { w with git := (applyProfile env p Scope.loc w.git).2,
                    loadCount := w.loadCount + 1 })) ∧
    ((∀ d, w.git.localMap "gitprofile.default" = some d → ¬d = "" →
        lookupP m d = none) →
     (∀ g, w.git.globalMap "gitprofile.default" = some g → ¬g = "" →
        lookupP m g = none) →
        cmdEnsure env input w =
          cmdChoose env input { w with loadCount := w.loadCount + 1 }) := by
  refine ⟨?_, ?_, ?_⟩
  · intro d p hl hd hp
    simp only [cmdEnsure, loadConfigW, hload, if_neg hne, getGitConfig, hl,
      if_pos hd, hp]
    rcases happ : applyProfile env p Scope.loc w.git with ⟨r, git1⟩
    cases r <;> simp [Except.map]
  · intro hlfail g p hg hgne hgp
    have htail : ensureGlobalTier env input m { w with loadCount := w.loadCount + 1 } =
        ((applyProfile env p Scope.loc w.git).1.map (fun _ => g),
         { w with git := (applyProfile env p Scope.loc w.git).2,
                  loadCount := w.loadCount + 1 }) := by
      simp only [ensureGlobalTier, getGitConfigGlobal, hg, if_pos hgne, hgp]
      rcases happ : applyProfile env p Scope.loc w.git with ⟨r, git1⟩
      cases r <;> simp [Except.map]
    cases hl : w.git.localMap "gitprofile.default" with
    | none =>
      simp only [cmdEnsure, loadConfigW, hload, if_neg hne, getGitConfig, hl, hg,
        if_pos hgne, hgp]
      rcases happ : applyProfile env p Scope.loc w.git with ⟨r, git1⟩
      cases r <;> simp [Except.map]
    | some d =>
      by_cases hd : d = ""
      · subst hd
        simp only [cmdEnsure, loadConfigW, hload, if_neg hne, getGitConfig, hl]
        rw [if_neg (by simp)]
        exact htail
      · have hdnone := hlfail d hl hd
        simp only [cmdEnsure, loadConfigW, hload, if_neg hne, getGitConfig, hl,
          if_pos hd, hdnone]
        exact htail
  · intro hlfail hgfail
    have htail : ensureGlobalTier env input m { w with loadCount := w.loadCount + 1 } =
        cmdChoose env input { w with loadCount := w.loadCount + 1 } := by
      cases hg : w.git.globalMap "gitprofile.default" with
      | none => simp only [ensureGlobalTier, getGitConfigGlobal, hg]
      | some g =>
        by_cases hgne : g = ""
        · subst hgne
          simp only [ensureGlobalTier, getGitConfigGlobal, hg]
          rw [if_neg (by simp)]
        · have hgnone := hgfail g hg hgne
          simp only [ensureGlobalTier, getGitConfigGlobal, hg, if_pos hgne, hgnone]
    cases hl : w.git.localMap "gitprofile.default" with
    | none =>
      cases hg : w.git.globalMap "gitprofile.default" with
      | none =>
        simp only [cmdEnsure, loadConfigW, hload, if_neg hne, getGitConfig, hl, hg]
        exact htail
      | some g =>
        by_cases hgne : g = ""
        · subst hgne
          simp only [cmdEnsure, loadConfigW, hload, if_neg hne, getGitConfig, hl, hg]
          rw [if_neg (by simp)]
          exact htail
        · have hgnone := hgfail g hg hgne
          simp only [cmdEnsure, loadConfigW, hload, if_neg hne, getGitConfig, hl, hg,
            if_pos hgne, hgnone]
          exact htail
    | some d =>
      by_cases hd : d = ""
      · subst hd
        simp only [cmdEnsure, loadConfigW, hload, if_neg hne, getGitConfig, hl]
        rw [if_neg (by simp)]
        exact htail
      · have hdnone := hlfail d hl hd
        simp only [cmdEnsure, loadConfigW, hload, if_neg hne, getGitConfig, hl,
          if_pos hd, hdnone]
        exact htail

/-- Witness for C5: a local default `bob` present in the profiles is
applied without prompting, even though the global default differs. -/
theorem cmdEnsure_resolution_witness :
    cmdEnsure sampleEnv "1"
        { file := saveConfig sampleMap,
          git := ⟨fun k => if k = "gitprofile.default" then some "bob" else none,
                  fun k => if k = "gitprofile.default" then some "alice" else none⟩,
          loadCount := 0, hooksInstalled := false } =
      ((applyProfile sampleEnv bob Scope.loc
          ⟨fun k => if k = "gitprofile.default" then some "bob" else none,
           fun k => if k = "gitprofile.default" then some "alice" else none⟩).1.map
        (fun _ => "bob"),
       { file := saveConfig sampleMap,
         git := (applyProfile sampleEnv bob Scope.loc
            ⟨fun k => if k = "gitprofile.default" then some "bob" else none,
             fun k => if k = "gitprofile.default" then some "alice" else none⟩).2,
         loadCount := 1, hooksInstalled := false }) :=
  (cmdEnsure_resolution sampleEnv "1"
      { file := saveConfig sampleMap,
        git := ⟨fun k => if k = "gitprofile.default" then some "bob" else none,
                fun k => if k = "gitprofile.default" then some "alice" else none⟩,
        loadCount := 0, hooksInstalled := false }
      sampleMap rfl (by decide)).1 "bob" bob rfl (by decide) rfl

/-- C7: `main` exits 0 when a command handler succeeds and 1 when it
fails, printing `Error: <message>` on standard error; with no command or
an unknown command it prints usage on standard output and exits 1
(`help`/`-h`/`--help` print usage and exit 0). -/
theorem mainDispatch_exit_codes (argv : List String) (h : String → Except String Unit) :
    (argv.length < 2 →
        mainDispatch argv h =
          { exitCode := 1, usageShown := true, errLine := none, unknownLine := none }) ∧
    (∀ prog cmd rest, argv = prog :: cmd :: rest → commandNames.contains cmd = true →
      (h cmd = Except.ok () →
          mainDispatch argv h =
            { exitCode := 0, usageShown := false, errLine := none, unknownLine := none }) ∧
      (∀ e, h cmd = Except.error e →
          mainDispatch argv h =
            { exitCode := 1, usageShown := false, errLine := some ("Error: " ++ e),
              unknownLine := none })) ∧
    (∀ prog cmd rest, argv = prog :: cmd :: rest →
        (cmd = "help" ∨ cmd = "-h" ∨ cmd = "--help") →
        mainDispatch argv h =
          { exitCode := 0, usageShown := true, errLine := none, unknownLine := none }) ∧
    (∀ prog cmd rest, argv = prog :: cmd :: rest →
        ¬(cmd = "help" ∨ cmd = "-h" ∨ cmd = "--help") →
        commandNames.contains cmd = false →
        mainDispatch argv h =
          { exitCode := 1, usageShown := true, errLine := none,
            unknownLine := some ("Unknown command: " ++ cmd) }) := by
  refine ⟨?_, ?_, ?_, ?_⟩
  · intro hlen
    match argv, hlen with
    | [], _ => rfl
    | [a], _ => rfl
    | a :: b :: rest, hlen => exact absurd hlen (by simp)
  · intro prog cmd rest hargv hknown
    subst hargv
    have hnothelp : ¬(cmd = "help" ∨ cmd = "-h" ∨ cmd = "--help") := by
      intro hc
      rcases hc with rfl | rfl | rfl <;> simp [commandNames] at hknown
    have hmem : cmd ∈ commandNames := by simpa using hknown
    constructor
    · intro hok
      simp [mainDispatch, if_neg hnothelp, hmem, hok]
    · intro e herr
      simp [mainDispatch, if_neg hnothelp, hmem, herr]
  · intro prog cmd rest hargv hhelp
    subst hargv
    simp [mainDispatch, if_pos hhelp]
  · intro prog cmd rest hargv hnothelp hunknown
    subst hargv
    have hmem : cmd ∉ commandNames := by simpa using hunknown
    simp [mainDispatch, if_neg hnothelp, hmem]

/-- Witness for C7: a failing `use` handler exits 1 with the wrapped
error line; an unknown command exits 1 with usage shown. -/
theorem mainDispatch_exit_codes_witness :
    mainDispatch ["git-profile", "use"]
        (fun _ => Except.error "profile \"work\" not found") =
      { exitCode := 1, usageShown := false,
        errLine := some "Error: profile \"work\" not found", unknownLine := none } ∧
    mainDispatch ["git-profile", "frobnicate"] (fun _ => Except.ok ()) =
      { exitCode := 1, usageShown := true, errLine := none,
        unknownLine := some "Unknown command: frobnicate" } :=
  ⟨((mainDispatch_exit_codes ["git-profile", "use"]
        (fun _ => Except.error "profile \"work\" not found")).2.1
      "git-profile" "use" [] rfl (by decide)).2 "profile \"work\" not found" rfl,
   (mainDispatch_exit_codes ["git-profile", "frobnicate"] (fun _ => Except.ok ())).2.2.2
      "git-profile" "frobnicate" [] rfl (by decide) (by decide)⟩

theorem append_ne_append_of_take_ne {p q : String} (a b : String) (k : Nat)
    (hp : k ≤ p.data.length) (hq : k ≤ q.data.length)
    (hne : ¬p.data.take k = q.data.take k) : ¬p ++ a = q ++ b := by
  intro hc
  have hd : (p ++ a).data = (q ++ b).data := by rw [hc]
  rw [String.data_append, String.data_append] at hd
  have ht := congrArg (List.take k) hd
  rw [List.take_append_of_le_length hp, List.take_append_of_le_length hq] at ht
  exact hne ht

theorem append_ne_fixed_of_take_ne {p : String} (a : String) (q : String) (k : Nat)
    (hp : k ≤ p.data.length) (hq : k ≤ q.data.length)
    (hne : ¬p.data.take k = q.data.take k) : ¬p ++ a = q := by
  intro hc
  refine append_ne_append_of_take_ne a "" k hp hq hne ?_
  rw [hc, String.append_empty]

theorem name_line_ne_header (n : String) :
    ¬"  user.name  = " ++ n = "Current git identity (this repo):" :=
  append_ne_fixed_of_take_ne n "Current git identity (this repo):" 8
    (by decide) (by decide) (by decide)

theorem name_line_notin_emailLine (o : Option String) (n : String) :
    ("  user.name  = " ++ n) ∉ emailLine o := by
  cases o with
  | none => simp [emailLine]
  | some e =>
    simp only [emailLine, List.mem_singleton]
    exact append_ne_append_of_take_ne n e 8 (by decide) (by decide) (by decide)

theorem name_line_notin_sshLine (st : GitState) (n : String) :
    ("  user.name  = " ++ n) ∉ sshLine st := by
  cases h : getGitConfig st "core.sshCommand" with
  | none =>
    simp only [sshLine, h, List.mem_singleton]
    exact append_ne_fixed_of_take_ne n "  core.sshCommand = (default)" 8
      (by decide) (by decide) (by decide)
  | some s =>
    by_cases hs : s = ""
    · simp only [sshLine, h]
      rw [if_neg (fun hc : s ≠ "" => hc hs)]
      simp only [List.mem_singleton]
      exact append_ne_fixed_of_take_ne n "  core.sshCommand = (default)" 8
        (by decide) (by decide) (by decide)
    · simp only [sshLine, h]
      rw [if_pos hs]
      simp only [List.mem_singleton]
      exact append_ne_append_of_take_ne n s 8 (by decide) (by decide) (by decide)

theorem name_line_notin_localDefaultLine (st : GitState) (n : String) :
    ("  user.name  = " ++ n) ∉ localDefaultLine st := by
  cases h : getGitConfig st "gitprofile.default" with
  | none => simp [localDefaultLine, h]
  | some d =>
    by_cases hd : d = ""
    · simp only [localDefaultLine, h]
      rw [if_neg (fun hc : d ≠ "" => hc hd)]
      simp
    · simp only [localDefaultLine, h]
      rw [if_pos hd]
      simp only [List.mem_singleton]
      exact append_ne_append_of_take_ne n d 8 (by decide) (by decide) (by decide)

theorem name_line_notin_globalDefaultLine (st : GitState) (n : String) :
    ("  user.name  = " ++ n) ∉ globalDefaultLine st := by
  cases h : getGitConfigGlobal st "gitprofile.default" with
  | none => simp [globalDefaultLine, h]
  | some g =>
    by_cases hg : g = ""
    · simp only [globalDefaultLine, h]
      rw [if_neg (fun hc : g ≠ "" => hc hg)]
      simp
    · simp only [globalDefaultLine, h]
      rw [if_pos hg]
      simp only [List.mem_singleton]
      exact append_ne_append_of_take_ne n g 8 (by decide) (by decide) (by decide)

theorem email_line_ne_header (e : String) :
    ¬"  user.email = " ++ e = "Current git identity (this repo):" :=
  append_ne_fixed_of_take_ne e "Current git identity (this repo):" 8
    (by decide) (by decide) (by decide)

theorem email_line_notin_nameLine (o : Option String) (e : String) :
    ("  user.email = " ++ e) ∉ nameLine o := by
  cases o with
  | none => simp [nameLine]
  | some n =>
    simp only [nameLine, List.mem_singleton]
    exact append_ne_append_of_take_ne e n 8 (by decide) (by decide) (by decide)

theorem email_line_notin_sshLine (st : GitState) (e : String) :
    ("  user.email = " ++ e) ∉ sshLine st := by
  cases h : getGitConfig st "core.sshCommand" with
  | none =>
    simp only [sshLine, h, List.mem_singleton]
    exact append_ne_fixed_of_take_ne e "  core.sshCommand = (default)" 8
      (by decide) (by decide) (by decide)
  | some s =>
    by_cases hs : s = ""
    · simp only [sshLine, h]
      rw [if_neg (fun hc : s ≠ "" => hc hs)]
      simp only [List.mem_singleton]
      exact append_ne_fixed_of_take_ne e "  core.sshCommand = (default)" 8
        (by decide) (by decide) (by decide)
    · simp only [sshLine, h]
      rw [if_pos hs]
      simp only [List.mem_singleton]
      exact append_ne_append_of_take_ne e s 8 (by decide) (by decide) (by decide)

theorem email_line_notin_localDefaultLine (st : GitState) (e : String) :
    ("  user.email = " ++ e) ∉ localDefaultLine st := by
  cases h : getGitConfig st "gitprofile.default" with
  | none => simp [localDefaultLine, h]
  | some d =>
    by_cases hd : d = ""
    · simp only [localDefaultLine, h]
      rw [if_neg (fun hc : d ≠ "" => hc hd)]
      simp
    · simp only [localDefaultLine, h]
      rw [if_pos hd]
      simp only [List.mem_singleton]
      exact append_ne_append_of_take_ne e d 8 (by decide) (by decide) (by decide)

theorem email_line_notin_globalDefaultLine (st : GitState) (e : String) :
    ("  user.email = " ++ e) ∉ globalDefaultLine st := by
  cases h : getGitConfigGlobal st "gitprofile.default" with
  | none => simp [globalDefaultLine, h]
  | some g =>
    by_cases hg : g = ""
    · simp only [globalDefaultLine, h]
      rw [if_neg (fun hc : g ≠ "" => hc hg)]
      simp
    · simp only [globalDefaultLine, h]
      rw [if_pos hg]
      simp only [List.mem_singleton]
      exact append_ne_append_of_take_ne e g 8 (by decide) (by decide) (by decide)

theorem mem_sshLine_of_some (st : GitState) (s : String)
    (hs : getGitConfig st "core.sshCommand" = some s) (hne : ¬s = "") :
    ("  core.sshCommand = " ++ s) ∈ sshLine st := by
  simp [sshLine, hs, hne]

theorem mem_sshLine_of_none (st : GitState)
    (hs : getGitConfig st "core.sshCommand" = none) :
    "  core.sshCommand = (default)" ∈ sshLine st := by
  simp [sshLine, hs]

theorem mem_localDefaultLine (st : GitState) (d : String)
    (hd : getGitConfig st "gitprofile.default" = some d) (hne : ¬d = "") :
    ("  gitprofile.default (local) = " ++ d) ∈ localDefaultLine st := by
  simp [localDefaultLine, hd, hne]

theorem mem_globalDefaultLine (st : GitState) (g : String)
    (hg : getGitConfigGlobal st "gitprofile.default" = some g) (hne : ¬g = "") :
    ("  gitprofile.default (global) = " ++ g) ∈ globalDefaultLine st := by
  simp [globalDefaultLine, hg, hne]

/-- C8: `cmdCurrent` fails exactly when both `user.name` and
`user.email` resolve to nothing; when at least one is readable it
succeeds, printing exactly whichever of the two is set, the
`core.sshCommand` value (or a `(default)` marker when it is unset or
empty), and any nonempty local and global `gitprofile.default`
values. -/
theorem cmdCurrent_spec (st : GitState) :
    ((∃ lines, cmdCurrent st = Except.ok lines) ↔
      ((getGitConfig st "user.name").isSome ∨ (getGitConfig st "user.email").isSome)) ∧
    (getGitConfig st "user.name" = none → getGitConfig st "user.email" = none →
        cmdCurrent st = Except.error "no user.name or user.email set in this repo") ∧
    (∀ lines, cmdCurrent st = Except.ok lines →
      (∀ n, getGitConfig st "user.name" = some n → ("  user.name  = " ++ n) ∈ lines) ∧
      (getGitConfig st "user.name" = none →
        ∀ n, ("  user.name  = " ++ n) ∉ lines) ∧
      (∀ e, getGitConfig st "user.email" = some e → ("  user.email = " ++ e) ∈ lines) ∧
      (getGitConfig st "user.email" = none →
        ∀ e, ("  user.email = " ++ e) ∉ lines) ∧
      (∀ s, getGitConfig st "core.sshCommand" = some s → ¬s = "" →
          ("  core.sshCommand = " ++ s) ∈ lines) ∧
      (getGitConfig st "core.sshCommand" = none →
          "  core.sshCommand = (default)" ∈ lines) ∧
      (∀ d, getGitConfig st "gitprofile.default" = some d → ¬d = "" →
          ("  gitprofile.default (local) = " ++ d) ∈ lines) ∧
      (∀ g, getGitConfigGlobal st "gitprofile.default" = some g → ¬g = "" →
          ("  gitprofile.default (global) = " ++ g) ∈ lines)) := by
  refine ⟨?_, ?_, ?_⟩
  · constructor
    · rintro ⟨lines, hlines⟩
      by_contra hc
      push_neg at hc
      have h1 : getGitConfig st "user.name" = none := by
        cases hcase : getGitConfig st "user.name" with
        | none => rfl
        | some v => rw [hcase] at hc; simp at hc
      have h2 : getGitConfig st "user.email" = none := by
        cases hcase : getGitConfig st "user.email" with
        | none => rfl
        | some v => rw [hcase] at hc; simp at hc
      rw [cmdCurrent, h1, h2] at hlines
      exact Except.noConfusion hlines
    · intro h
      cases hn : getGitConfig st "user.name" with
      | some n =>
        refine ⟨["Current git identity (this repo):"] ++ nameLine (some n) ++
          emailLine (getGitConfig st "user.email") ++ sshLine st ++
          localDefaultLine st ++ globalDefaultLine st, ?_⟩
        rw [cmdCurrent, hn]
      | none =>
        cases he : getGitConfig st "user.email" with
        | some e =>
          refine ⟨["Current git identity (this repo):"] ++ nameLine none ++
            emailLine (some e) ++ sshLine st ++ localDefaultLine st ++
            globalDefaultLine st, ?_⟩
          rw [cmdCurrent, hn, he]
        | none =>
          rw [hn, he] at h
          simp at h
  · intro hn he
    rw [cmdCurrent, hn, he]
  · intro lines hlines
    cases hn : getGitConfig st "user.name" with
    | some n0 =>
      rw [cmdCurrent, hn] at hlines
      have hl : lines = ["Current git identity (this repo):"] ++
          nameLine (some n0) ++ emailLine (getGitConfig st "user.email") ++
          sshLine st ++ localDefaultLine st ++ globalDefaultLine st := by
        cases he : getGitConfig st "user.email" with
        | some e0 =>
          rw [he] at hlines
          exact (Except.ok.inj hlines).symm
        | none =>
          rw [he] at hlines
          exact (Except.ok.inj hlines).symm
      subst hl
      refine ⟨?_, ?_, ?_, ?_, ?_, ?_, ?_, ?_⟩
      · intro n h
        injection h with h2
        subst h2
        simp [nameLine]
      · intro h
        exact Option.noConfusion h
      · intro e h
        rw [h]
        simp [emailLine]
      · intro h n hmem
        rw [h] at hmem
        rcases List.mem_append.mp hmem with hmem1 | hgd
        · rcases List.mem_append.mp hmem1 with hmem2 | hld
          · rcases List.mem_append.mp hmem2 with hmem3 | hss
            · rcases List.mem_append.mp hmem3 with hmem4 | hem
              · rcases List.mem_append.mp hmem4 with hhd | hnm
                · exact email_line_ne_header n (List.mem_singleton.mp hhd)
                · exact email_line_notin_nameLine (some n0) n hnm
              · simp [emailLine] at hem
            · exact email_line_notin_sshLine st n hss
          · exact email_line_notin_localDefaultLine st n hld
        · exact email_line_notin_globalDefaultLine st n hgd
      · intro s hs hne
        have := mem_sshLine_of_some st s hs hne
        simp only [List.mem_append]
        tauto
      · intro hs
        have := mem_sshLine_of_none st hs
        simp only [List.mem_append]
        tauto
      · intro d hd hne
        have := mem_localDefaultLine st d hd hne
        simp only [List.mem_append]
        tauto
      · intro g hg hne
        have := mem_globalDefaultLine st g hg hne
        simp only [List.mem_append]
        tauto
    | none =>
      cases he : getGitConfig st "user.email" with
      | none =>
        rw [cmdCurrent, hn, he] at hlines
        exact Except.noConfusion hlines
      | some e0 =>
        rw [cmdCurrent, hn, he] at hlines
        have hl : lines = ["Current git identity (this repo):"] ++
            nameLine none ++ emailLine (some e0) ++
            sshLine st ++ localDefaultLine st ++ globalDefaultLine st :=
          (Except.ok.inj hlines).symm
        subst hl
        refine ⟨?_, ?_, ?_, ?_, ?_, ?_, ?_, ?_⟩
        · intro n h
          exact Option.noConfusion h
        · intro _ n hmem
          rcases List.mem_append.mp hmem with hmem1 | hgd
          · rcases List.mem_append.mp hmem1 with hmem2 | hld
            · rcases List.mem_append.mp hmem2 with hmem3 | hss
              · rcases List.mem_append.mp hmem3 with hmem4 | hem
                · rcases List.mem_append.mp hmem4 with hhd | hnm
                  · exact name_line_ne_header n (List.mem_singleton.mp hhd)
                  · simp [nameLine] at hnm
                · exact name_line_notin_emailLine (some e0) n hem
              · exact name_line_notin_sshLine st n hss
            · exact name_line_notin_localDefaultLine st n hld
          · exact name_line_notin_globalDefaultLine st n hgd
        · intro e h
          injection h with h2
          subst h2
          simp [emailLine]
        · intro h
          exact Option.noConfusion h
        · intro s hs hne
          have := mem_sshLine_of_some st s hs hne
          simp only [List.mem_append]
          tauto
        · intro hs
          have := mem_sshLine_of_none st hs
          simp only [List.mem_append]
          tauto
        · intro d hd hne
          have := mem_localDefaultLine st d hd hne
          simp only [List.mem_append]
          tauto
        · intro g hg hne
          have := mem_globalDefaultLine st g hg hne
          simp only [List.mem_append]
          tauto

/-- Witness for C8: with only `user.name` set, `current` succeeds; with
nothing set it fails with the documented message. -/
theorem cmdCurrent_spec_witness :
    (∃ lines, cmdCurrent gitNameOnly = Except.ok lines) ∧
    cmdCurrent emptyGit = Except.error "no user.name or user.email set in this repo" :=
  ⟨(cmdCurrent_spec gitNameOnly).1.mpr (Or.inl (by rfl)),
   (cmdCurrent_spec emptyGit).2.1 rfl rfl⟩

/-! ## Frame lemmas: which commands touch the config file, and how often
they load it -/

theorem cmdList_world (w : World) :
    (cmdList w).2.file = w.file ∧ (cmdList w).2.loadCount = w.loadCount + 1 := by
  cases hload : loadConfig w.file with
  | error e => simp [cmdList, loadConfigW, hload]
  | ok m =>
    simp only [cmdList, loadConfigW, hload]
    by_cases h : m.length = 0 <;> simp [h]

theorem cmdUse_world (env : GitEnv) (g : Bool) (pos : List String) (w : World) :
    (cmdUse env g pos w).2.file = w.file ∧
    (cmdUse env g pos w).2.loadCount ≤ w.loadCount + 1 := by
  cases pos with
  | nil => simp [cmdUse]
  | cons id rest =>
    cases hload : loadConfig w.file with
    | error e => simp [cmdUse, loadConfigW, hload]
    | ok m =>
      simp only [cmdUse, loadConfigW, hload]
      repeat' split
      all_goals simp

theorem cmdChoose_world (env : GitEnv) (input : String) (w : World) :
    (cmdChoose env input w).2.file = w.file ∧
    (cmdChoose env input w).2.loadCount = w.loadCount + 1 := by
  cases hload : loadConfig w.file with
  | error e => simp [cmdChoose, loadConfigW, hload]
  | ok m =>
    simp only [cmdChoose, loadConfigW, hload]
    repeat' split
    all_goals simp

theorem cmdSetDefault_world (env : GitEnv) (g : Bool) (pos : List String) (w : World) :
    (cmdSetDefault env g pos w).2.file = w.file ∧
    (cmdSetDefault env g pos w).2.loadCount ≤ w.loadCount + 1 := by
  cases pos with
  | nil => simp [cmdSetDefault]
  | cons id rest =>
    cases hload : loadConfig w.file with
    | error e => simp [cmdSetDefault, loadConfigW, hload]
    | ok m =>
      simp only [cmdSetDefault, loadConfigW, hload]
      repeat' split
      all_goals simp

theorem ensureGlobalTier_world (env : GitEnv) (input : String) (m : ProfileMap)
    (w1 : World) :
    (ensureGlobalTier env input m w1).2.file = w1.file ∧
    (ensureGlobalTier env input m w1).2.loadCount ≤ w1.loadCount + 1 := by
  have hc := cmdChoose_world env input w1
  rcases hres : cmdChoose env input w1 with ⟨cr, cw⟩
  rw [hres] at hc
  simp only [ensureGlobalTier, hres]
  repeat' split
  all_goals try exact ⟨hc.1, le_of_eq hc.2⟩
  all_goals simp

theorem cmdEnsure_world (env : GitEnv) (input : String) (w : World) :
    (cmdEnsure env input w).2.file = w.file ∧
    (cmdEnsure env input w).2.loadCount ≤ w.loadCount + 2 := by
  cases hload : loadConfig w.file with
  | error e => simp [cmdEnsure, loadConfigW, hload]
  | ok m =>
    have hT := ensureGlobalTier_world env input m { w with loadCount := w.loadCount + 1 }
    rcases hres : ensureGlobalTier env input m { w with loadCount := w.loadCount + 1 }
      with ⟨tr, tw⟩
    rw [hres] at hT
    simp only at hT
    simp only [cmdEnsure, loadConfigW, hload, hres]
    repeat' split
    all_goals try exact ⟨hT.1, le_trans hT.2 (by omega)⟩
    all_goals simp

theorem cmdInstallHooks_world (env : GitEnv) (w : World) :
    (cmdInstallHooks env w).2.file = w.file ∧
    (cmdInstallHooks env w).2.loadCount = w.loadCount := by
  simp only [cmdInstallHooks]
  repeat' split
  all_goals simp

/-- C9 (amended): only `add` ever writes the stored config file; every
other command leaves the stored profile mapping on disk unchanged whether
it succeeds or fails, and loads the config at most once — except
`ensure`, which loads it a second time when it falls through to the
interactive `choose` flow. -/
theorem runCommand_frame (env : GitEnv) (input : String) (c : Cmd) (w : World)
    (hc : ∀ fl, ¬c = Cmd.add fl) :
    (runCommand env input c w).2.file = w.file ∧
    (runCommand env input c w).2.loadCount ≤
      w.loadCount + (if c = Cmd.ensure then 2 else 1) := by
  cases c with
  | add fl => exact absurd rfl (hc fl)
  | list =>
    have h := cmdList_world w
    simp only [runCommand]
    rcases hres : cmdList w with ⟨r, w1⟩
    rw [hres] at h
    simp only [h.1, h.2] at *
    exact ⟨h.1, by simp [h.2]⟩
  | use g pos =>
    have h := cmdUse_world env g pos w
    simp only [runCommand]
    rcases hres : cmdUse env g pos w with ⟨r, w1⟩
    rw [hres] at h
    exact ⟨h.1, by simpa using h.2⟩
  | current => exact ⟨rfl, Nat.le_succ _⟩
  | choose =>
    have h := cmdChoose_world env input w
    simp only [runCommand]
    rcases hres : cmdChoose env input w with ⟨r, w1⟩
    rw [hres] at h
    exact ⟨h.1, le_of_eq h.2⟩
  | setDefault g pos =>
    have h := cmdSetDefault_world env g pos w
    simp only [runCommand]
    rcases hres : cmdSetDefault env g pos w with ⟨r, w1⟩
    rw [hres] at h
    exact ⟨h.1, by simpa using h.2⟩
  | ensure =>
    have h := cmdEnsure_world env input w
    simp only [runCommand]
    rcases hres : cmdEnsure env input w with ⟨r, w1⟩
    rw [hres] at h
    exact ⟨h.1, by simpa using h.2⟩
  | installHooks =>
    have h := cmdInstallHooks_world env w
    simp only [runCommand]
    exact ⟨h.1, by simp [h.2]⟩

/-- Witness for C9 (amended): `list` on the sample world leaves the file
unchanged and loads once. -/
theorem runCommand_frame_witness :
    (runCommand sampleEnv "" Cmd.list sampleWorld).2.file = sampleWorld.file ∧
    (runCommand sampleEnv "" Cmd.list sampleWorld).2.loadCount ≤
      sampleWorld.loadCount + (if Cmd.list = Cmd.ensure then 2 else 1) :=
  runCommand_frame sampleEnv "" Cmd.list sampleWorld (fun _ h => Cmd.noConfusion h)

/-- Counterexample for C9 as stated: `ensure` on a world with profiles
but no defaults falls through to `choose` and loads the config twice —
more than the "at most once" the claim asserts — while still leaving the
file unchanged. -/
theorem cmdEnsure_loads_twice_cx :
    sampleWorld.loadCount = 0 ∧
    (runCommand sampleEnv "" Cmd.ensure sampleWorld).2.loadCount = 2 ∧
    (runCommand sampleEnv "" Cmd.ensure sampleWorld).2.file = sampleWorld.file ∧
    ¬((runCommand sampleEnv "" Cmd.ensure sampleWorld).2.loadCount ≤
        sampleWorld.loadCount + 1) := by
  refine ⟨rfl, rfl, rfl, ?_⟩
  intro hcontra
  rw [show (runCommand sampleEnv "" Cmd.ensure sampleWorld).2.loadCount = 2 from rfl,
    show sampleWorld.loadCount = 0 from rfl] at hcontra
  omega

end GitProfile
